import Mathlib

/-!
Verification of the ASPX-to-HTML converter (src/main.py).

The program is a pipeline of regular-expression substitutions over a text
buffer.  We embed it shallowly: text is `List Char`, and each of the six
regular expressions of the source is embedded as a deterministic
"match at this position" function.  Every regex of the source is built from
literal characters and single-character-class quantifiers, so Python's
leftmost, backtracking match is equivalent to the maximal/minimal-munch
scans implemented here; each matcher's doc comment records the original
pattern and the reasoning.  `re.search` and `re.sub` are embedded
generically (`reSearch`, `reSub`).  Python's `str.replace`, `str.strip`
and the final f-string assembly are embedded directly.

Whitespace: Python's `\s` on ASCII text is space, tab, newline, carriage
return, vertical tab and form feed; `isPySpace` implements exactly that set
(the development, like all inputs considered in theorems, is ASCII).
-/

set_option maxRecDepth 20000

/-- Python `\s` (ASCII range): space, tab, newline, CR, vertical tab, form feed. -/
def isPySpace (c : Char) : Bool :=
  c == ' ' || c == '\t' || c == '\n' || c == '\r' || c == '\x0B' || c == '\x0C'

/-- Case-insensitive character comparison, as produced by `re.IGNORECASE`
on ASCII letters. -/
def lowerEq (a b : Char) : Bool :=
  a.toLower == b.toLower

/-- Split a string into its maximal whitespace prefix and the remainder:
the deterministic reading of a greedy `\s*`. -/
def spanWs (s : List Char) : List Char × List Char :=
  (s.takeWhile isPySpace, s.dropWhile isPySpace)

/-- Match the literal word `lit` case-insensitively at the front of `s`,
returning the consumed original characters and the remainder. -/
def stripCI : List Char → List Char → Option (List Char × List Char)
  | [], s => some ([], s)
  | _ :: _, [] => none
  | l :: ls, c :: t =>
      if lowerEq l c then (stripCI ls t).map (fun p => (c :: p.1, p.2)) else none

/-- Scan to the first character satisfying `p`: the deterministic reading of
a greedy negated class `[^x]*` followed by `x`.  Returns the characters
before the first hit and the remainder beginning with it; `none` when no
character satisfies `p`. -/
def scanUpto (p : Char → Bool) : List Char → Option (List Char × List Char)
  | [] => none
  | c :: t =>
      if p c then some ([], c :: t)
      else (scanUpto p t).map (fun q => (c :: q.1, q.2))

/-- Scan to the first occurrence of the literal substring `pat`: the
deterministic reading of a lazy `.*?` (DOTALL) followed by `pat`.  Returns
the characters before the occurrence and the remainder beginning with it. -/
def scanToSub (pat : List Char) : List Char → Option (List Char × List Char)
  | [] => if pat.isEmpty then some ([], []) else none
  | c :: t =>
      if pat.isPrefixOf (c :: t) then some ([], c :: t)
      else (scanToSub pat t).map (fun q => (c :: q.1, q.2))

/-- Python `str.strip()` on ASCII text: drop leading and trailing whitespace. -/
def pyStrip (s : List Char) : List Char :=
  ((s.dropWhile isPySpace).reverse.dropWhile isPySpace).reverse

/-- Does `pat` occur as a contiguous substring of `s`?  (Used to state
"the output contains ..." properties.) -/
def containsSub (pat : List Char) : List Char → Bool
  | [] => pat.isEmpty
  | c :: t => pat.isPrefixOf (c :: t) || containsSub pat t

/-- Number of positions of `s` at which `pat` occurs as a substring. -/
def countSub (pat : List Char) : List Char → Nat
  | [] => if pat.isEmpty then 1 else 0
  | c :: t => (if pat.isPrefixOf (c :: t) then 1 else 0) + countSub pat t

theorem spanWs_append (s : List Char) : (spanWs s).1 ++ (spanWs s).2 = s := by
  simp [spanWs]

theorem dropWhile_length_le (p : Char → Bool) (s : List Char) :
    (s.dropWhile p).length ≤ s.length := by
  induction s with
  | nil => simp
  | cons c t ih =>
      by_cases h : p c
      · simp [List.dropWhile, h]; omega
      · simp [List.dropWhile, h]

theorem spanWs_snd_length (s : List Char) : (spanWs s).2.length ≤ s.length :=
  dropWhile_length_le isPySpace s

theorem stripCI_length {lit s m r : List Char}
    (h : stripCI lit s = some (m, r)) : r.length + lit.length = s.length := by
  induction lit generalizing s m with
  | nil =>
      simp [stripCI] at h
      simp [h.2]
  | cons l ls ih =>
      cases s with
      | nil => simp [stripCI] at h
      | cons c t =>
          by_cases hc : lowerEq l c
          · rcases hst : stripCI ls t with _ | ⟨m', r'⟩
            · simp [stripCI, hc, hst] at h
            · simp [stripCI, hc, hst] at h
              rcases h with ⟨hm, hr⟩
              subst hr
              have hlen := ih hst
              simp only [List.length_cons]
              omega
          · simp [stripCI, hc] at h

theorem scanUpto_eq_append {p : Char → Bool} {s a b : List Char}
    (h : scanUpto p s = some (a, b)) : a ++ b = s := by
  induction s generalizing a b with
  | nil => simp [scanUpto] at h
  | cons c t ih =>
      by_cases hc : p c
      · simp [scanUpto, hc] at h
        simp [h.1, h.2]
      · rcases hst : scanUpto p t with _ | ⟨q1, q2⟩
        · simp [scanUpto, hc, hst] at h
        · simp [scanUpto, hc, hst] at h
          rcases h with ⟨ha, hb⟩
          subst hb
          have := ih hst
          simp [← ha, ← this]

theorem scanToSub_eq_append {pat s a b : List Char}
    (h : scanToSub pat s = some (a, b)) : a ++ b = s := by
  induction s generalizing a b with
  | nil =>
      by_cases he : pat.isEmpty
      · simp [scanToSub, he] at h
        simp [h.1, h.2]
      · simp [scanToSub, he] at h
  | cons c t ih =>
      by_cases hc : pat.isPrefixOf (c :: t)
      · simp [scanToSub, hc] at h
        simp [h.1, h.2]
      · rcases hst : scanToSub pat t with _ | ⟨q1, q2⟩
        · simp [scanToSub, hc, hst] at h
        · simp [scanToSub, hc, hst] at h
          rcases h with ⟨ha, hb⟩
          subst hb
          have := ih hst
          simp [← ha, ← this]

theorem scanUpto_length_le {p : Char → Bool} {s a b : List Char}
    (h : scanUpto p s = some (a, b)) : b.length ≤ s.length := by
  have h2 := scanUpto_eq_append h
  subst h2
  rw [List.length_append]
  omega

theorem scanToSub_length_le {pat s a b : List Char}
    (h : scanToSub pat s = some (a, b)) : b.length ≤ s.length := by
  have h2 := scanToSub_eq_append h
  subst h2
  rw [List.length_append]
  omega

/-!
The six compiled regular expressions of the source, each embedded as a
deterministic match-at-this-position function returning the data the
program uses (group 0 or group 1) together with the remainder of the text
after the match.  In every pattern each quantifier ranges over a character
class that is disjoint from the literal required next (e.g. `\s*` followed
by a non-space literal, `[^%]*` followed by `%`), so greedy quantifiers are
maximal munch, lazy ones are shortest-first scans, and no backtracking
alternative ever yields a different match than the scans below.
-/

/-- Matcher for `PAGE_DIRECTIVE_RE = r'<%@\s*Page\s+[^%]*%>'`
(IGNORECASE, DOTALL).  After `<%@`, whitespace, case-insensitive `Page` and
one mandatory whitespace character, the greedy `[^%]*` runs to the first
`%`, which must be followed by `>` (no backtracking is possible since
`[^%]` cannot match `%`).  Returns (group 0, remainder). -/
def pageScanTail (w pg : List Char) (c : Char) (t2 : List Char) :
    Option (List Char × List Char) :=
  match scanUpto (· == '%') t2 with
  | some (mid, '%' :: '>' :: r) =>
      some ('<' :: '%' :: '@' :: (w ++ pg ++ c :: mid ++ ['%', '>']), r)
  | _ => none

def pageDirectiveMatchAt (s : List Char) : Option (List Char × List Char) :=
  match s with
  | '<' :: '%' :: '@' :: t =>
      let ws1 := spanWs t
      match stripCI "page".data ws1.2 with
      | some (pg, c :: t2) =>
          if isPySpace c then pageScanTail ws1.1 pg c t2 else none
      | _ => none
  | _ => none

/-- Matcher for `TITLE_RE = r'Title\s*=\s*"([^"]+)"'` (IGNORECASE).
The greedy `[^"]+` runs to the first `"` and must be nonempty.
Returns (group 1, remainder). -/
def titleScanTail (t3 : List Char) : Option (List Char × List Char) :=
  match scanUpto (· == '"') t3 with
  | some (v, '"' :: r) => if v.isEmpty then none else some (v, r)
  | _ => none

def titleMatchAt (s : List Char) : Option (List Char × List Char) :=
  match stripCI "title".data s with
  | some (_, t1) =>
      match (spanWs t1).2 with
      | '=' :: t2 =>
          match (spanWs t2).2 with
          | '"' :: t3 => titleScanTail t3
          | _ => none
      | _ => none
  | none => none

/-- Matcher for `ASP_CONTENT_START_RE = r'<asp:Content[^>]*>'` (IGNORECASE).
The leading `<` is matched literally (case folding does not affect it);
the greedy `[^>]*` runs to the first `>`.  Returns (group 0, remainder). -/
def aspContentStartMatchAt (s : List Char) : Option (List Char × List Char) :=
  match s with
  | '<' :: t =>
      match stripCI "asp:content".data t with
      | some (m0, t1) =>
          match scanUpto (· == '>') t1 with
          | some (mid, '>' :: r) => some ('<' :: (m0 ++ mid ++ ['>']), r)
          | _ => none
      | none => none
  | _ => none

/-- Matcher for `ASP_CONTENT_END_RE = r'</asp:Content>'` (IGNORECASE).
The leading `</` and the final `>` are matched literally.
Returns (group 0, remainder). -/
def aspContentEndMatchAt (s : List Char) : Option (List Char × List Char) :=
  match s with
  | '<' :: '/' :: t =>
      match stripCI "asp:content".data t with
      | some (m0, '>' :: r) => some ('<' :: '/' :: (m0 ++ ['>']), r)
      | _ => none
  | _ => none

/-- Matcher for `ASP_COMMENT_RE = r'<%--.*?--%>'` (DOTALL, case-sensitive).
The lazy `.*?` stops at the first occurrence of `--%>`.
Returns (group 0, remainder). -/
def aspCommentMatchAt (s : List Char) : Option (List Char × List Char) :=
  match s with
  | '<' :: '%' :: '-' :: '-' :: t =>
      match scanToSub "--%>".data t with
      | some (a, b) =>
          some ('<' :: '%' :: '-' :: '-' :: (a ++ "--%>".data), b.drop 4)
      | none => none
  | _ => none

/-- Matcher for `ASP_SERVER_BLOCK_RE = r'<%[^@].*?%>'` (DOTALL,
case-sensitive).  One character that is not `@` after `<%`, then the lazy
`.*?` stops at the first occurrence of `%>`.  Returns (group 0, remainder). -/
def aspServerBlockMatchAt (s : List Char) : Option (List Char × List Char) :=
  match s with
  | '<' :: '%' :: c :: t =>
      if c = '@' then none
      else
        match scanToSub "%>".data t with
        | some (a, b) => some ('<' :: '%' :: c :: (a ++ "%>".data), b.drop 2)
        | none => none
  | _ => none

/-- Separator line of the banner pattern: `<%\s*[-]{3,}\s*%>`.
Returns (consumed, remainder).  `[-]{3,}` is a maximal run of at least
three dashes (whitespace and `%` are not dashes, so no backtracking). -/
def sepLineMatchAt (s : List Char) : Option (List Char × List Char) :=
  match s with
  | '<' :: '%' :: t =>
      let w1 := spanWs t
      let ds := w1.2.takeWhile (· == '-')
      let t2 := w1.2.dropWhile (· == '-')
      if ds.length ≥ 3 then
        let w2 := spanWs t2
        match w2.2 with
        | '%' :: '>' :: r => some ('<' :: '%' :: (w1.1 ++ ds ++ w2.1 ++ ['%', '>']), r)
        | _ => none
      else none
  | _ => none

/-- The part of `THREE_LINE_HEADER_RE` that follows the captured group:
`\s*--\s*%>\s*` and then a separator line.  Returns the remainder after the
whole pattern when it matches here. -/
def bannerTailMatchAt (s : List Char) : Option (List Char) :=
  match (spanWs s).2 with
  | '-' :: '-' :: t2 =>
      match (spanWs t2).2 with
      | '%' :: '>' :: t4 => (sepLineMatchAt (spanWs t4).2).map (·.2)
      | _ => none
  | _ => none

/-- Lazy scan for the capture `(.*?)` of `THREE_LINE_HEADER_RE`: the
shortest prefix whose remainder matches the rest of the pattern.
Returns (group 1, remainder after the whole pattern). -/
def bannerCapture : List Char → Option (List Char × List Char)
  | [] => (bannerTailMatchAt []).map (fun r => ([], r))
  | c :: t =>
      match bannerTailMatchAt (c :: t) with
      | some r => some ([], r)
      | none => (bannerCapture t).map (fun p => (c :: p.1, p.2))

/-- Matcher for `THREE_LINE_HEADER_RE` (IGNORECASE, DOTALL, VERBOSE):
separator line, `\s*`, `<%\s*--\s*(.*?)\s*--\s*%>`, `\s*`, separator line.
Python's preference order (greedy `\s*` longest first, lazy `(.*?)`
shortest first) makes the first match equal to: maximal whitespace munch
everywhere, then the shortest capture whose remainder completes the
pattern.  Returns (group 1, remainder). -/
def threeLineHeaderMatchAt (s : List Char) : Option (List Char × List Char) :=
  match sepLineMatchAt s with
  | some (_, t1) =>
      match (spanWs t1).2 with
      | '<' :: '%' :: t3 =>
          match (spanWs t3).2 with
          | '-' :: '-' :: t5 => bannerCapture (spanWs t5).2
          | _ => none
      | _ => none
  | none => none

/-!
Generic embedding of `re.search` and `re.sub`: scan positions left to
right; at a match, `search` stops and `sub` emits the replacement and
resumes after the match (all our patterns match at least one character, so
the empty-match corner of `re.sub` never arises).  `subF` is fuel-indexed
so that it is structurally recursive and kernel-evaluable; `reSub` applies
it with fuel equal to the text length, which the lemmas below show is
always sufficient for length-decreasing matchers.
-/

/-- Embedding of `re.search` for a matcher `M`: the payload of the
leftmost match. -/
def reSearch (M : List Char → Option (α × List Char)) : List Char → Option α
  | [] => (M []).map (·.1)
  | c :: t =>
      match M (c :: t) with
      | some p => some p.1
      | none => reSearch M t

/-- Fuel-indexed worker for `re.sub`. -/
def subF (M : List Char → Option (α × List Char)) (rep : α → List Char) :
    Nat → List Char → List Char
  | _, [] => []
  | 0, s => s
  | fuel + 1, c :: t =>
      match M (c :: t) with
      | some (a, r) => rep a ++ subF M rep fuel r
      | none => c :: subF M rep fuel t

/-- Embedding of `re.sub` for a matcher `M` and replacement function `rep`. -/
def reSub (M : List Char → Option (α × List Char)) (rep : α → List Char)
    (s : List Char) : List Char :=
  subF M rep s.length s

/-- A matcher is length-decreasing when every match consumes at least one
character.  All six matchers are (each begins with a literal). -/
def Shrinking (M : List Char → Option (α × List Char)) : Prop :=
  ∀ s a r, M s = some (a, r) → r.length < s.length

theorem subF_nil (M : List Char → Option (α × List Char)) (rep) (f : Nat) :
    subF M rep f [] = [] := by
  cases f <;> rfl

theorem shrinking_nil_none {M : List Char → Option (α × List Char)}
    (hM : Shrinking M) : M [] = none := by
  rcases h : M [] with _ | ⟨a, r⟩
  · rfl
  · exact absurd (hM [] a r h) (by simp)

theorem subF_congr {M : List Char → Option (α × List Char)} {rep}
    (hM : Shrinking M) :
    ∀ f g s, s.length ≤ f → s.length ≤ g → subF M rep f s = subF M rep g s := by
  intro f
  induction f with
  | zero =>
      intro g s hf hg
      have : s = [] := List.length_eq_zero.mp (Nat.le_zero.mp hf)
      subst this
      simp [subF_nil]
  | succ f ih =>
      intro g s hf hg
      cases s with
      | nil => simp [subF_nil]
      | cons c t =>
          cases g with
          | zero => simp at hg
          | succ g =>
              show subF M rep (f + 1) (c :: t) = subF M rep (g + 1) (c :: t)
              rcases h : M (c :: t) with _ | ⟨a, r⟩
              · simp only [subF, h]
                have hlf : t.length ≤ f := by simp at hf; omega
                have hlg : t.length ≤ g := by simp at hg; omega
                rw [ih g t hlf hlg]
              · simp only [subF, h]
                have hr := hM _ _ _ h
                simp only [List.length_cons] at hf hg hr
                have hlf : r.length ≤ f := by omega
                have hlg : r.length ≤ g := by omega
                rw [ih g r hlf hlg]

theorem reSub_nil (M : List Char → Option (α × List Char)) (rep) :
    reSub M rep [] = [] := rfl

theorem reSub_cons_none {M : List Char → Option (α × List Char)} {rep}
    {c : Char} {t : List Char} (h : M (c :: t) = none) :
    reSub M rep (c :: t) = c :: reSub M rep t := by
  show subF M rep (t.length + 1) (c :: t) = c :: subF M rep t.length t
  simp only [subF, h]

theorem reSub_match {M : List Char → Option (α × List Char)} {rep}
    (hM : Shrinking M) {s r : List Char} {a : α} (h : M s = some (a, r)) :
    reSub M rep s = rep a ++ reSub M rep r := by
  cases s with
  | nil => rw [shrinking_nil_none hM] at h; cases h
  | cons c t =>
      show subF M rep (t.length + 1) (c :: t) = rep a ++ subF M rep r.length r
      simp only [subF, h]
      have hr := hM _ _ _ h
      have : r.length ≤ t.length := by simp at hr; omega
      rw [subF_congr hM t.length r.length r this (Nat.le_refl _)]

theorem reSearch_cons_none {M : List Char → Option (α × List Char)}
    {c : Char} {t : List Char} (h : M (c :: t) = none) :
    reSearch M (c :: t) = reSearch M t := by
  simp only [reSearch, h]

theorem reSearch_cons_some {M : List Char → Option (α × List Char)}
    {c : Char} {t r : List Char} {a : α} (h : M (c :: t) = some (a, r)) :
    reSearch M (c :: t) = some a := by
  simp only [reSearch, h]

theorem reSub_of_search_none {M : List Char → Option (α × List Char)} {rep}
    {s : List Char} (h : reSearch M s = none) : reSub M rep s = s := by
  induction s with
  | nil => rfl
  | cons c t ih =>
      rcases hm : M (c :: t) with _ | ⟨a, r⟩
      · rw [reSub_cons_none hm]
        rw [reSearch_cons_none hm] at h
        rw [ih h]
      · rw [reSearch_cons_some hm] at h
        cases h

theorem stripCI_append {lit s m r : List Char}
    (h : stripCI lit s = some (m, r)) : m ++ r = s := by
  induction lit generalizing s m with
  | nil =>
      simp [stripCI] at h
      simp [h.1, h.2]
  | cons l ls ih =>
      cases s with
      | nil => simp [stripCI] at h
      | cons c t =>
          by_cases hc : lowerEq l c
          · rcases hst : stripCI ls t with _ | ⟨m', r'⟩
            · simp [stripCI, hc, hst] at h
            · simp [stripCI, hc, hst] at h
              rcases h with ⟨hm, hr⟩
              subst hr
              simp [← hm, ih hst]
          · simp [stripCI, hc] at h

theorem pageDirectiveMatchAt_some {s m r : List Char}
    (h : pageDirectiveMatchAt s = some (m, r)) :
    m ++ r = s ∧ m ≠ [] := by
  unfold pageDirectiveMatchAt at h
  split at h
  next t =>
    dsimp only at h
    split at h
    next pg c t2 hst =>
      split at h
      next hws =>
        unfold pageScanTail at h
        split at h
        next mid r' hsc =>
          simp only [Option.some.injEq, Prod.mk.injEq] at h
          obtain ⟨hm, hr⟩ := h
          subst hr
          refine ⟨?_, by rw [← hm]; simp⟩
          rw [← hm]
          have h1 := spanWs_append t
          have h2 := stripCI_append hst
          have h3 := scanUpto_eq_append hsc
          simp only [List.cons_append, List.append_assoc, List.nil_append,
            List.cons.injEq, true_and]
          rw [h3, h2, h1]
        next => cases h
      next => cases h
    next => cases h
  next => cases h

theorem pageDirectiveMatchAt_shrinking : Shrinking pageDirectiveMatchAt := by
  intro s a r h
  obtain ⟨happ, hne⟩ := pageDirectiveMatchAt_some h
  subst happ
  cases a with
  | nil => exact absurd rfl hne
  | cons x xs => simp; omega

theorem titleMatchAt_shrinking : Shrinking titleMatchAt := by
  intro s v r h
  unfold titleMatchAt at h
  split at h
  next q t1 hst =>
    split at h
    next t2 heq2 =>
      split at h
      next t3 heq3 =>
        unfold titleScanTail at h
        split at h
        next v' r' hsc =>
          split at h
          next => cases h
          next =>
            simp only [Option.some.injEq, Prod.mk.injEq] at h
            obtain ⟨hv, hr⟩ := h
            subst hr
            have l1 := stripCI_length hst
            have l2 : t2.length + 1 = (spanWs t1).2.length := by rw [heq2]; simp
            have l2b := spanWs_snd_length t1
            have l3 : t3.length + 1 = (spanWs t2).2.length := by rw [heq3]; simp
            have l3b := spanWs_snd_length t2
            have l4 := scanUpto_length_le hsc
            simp only [List.length_cons] at l4
            simp only [String.data] at l1
            simp at l1
            omega
        next => cases h
      next => cases h
    next => cases h
  next => cases h

theorem aspContentStartMatchAt_some {s m r : List Char}
    (h : aspContentStartMatchAt s = some (m, r)) :
    m ++ r = s ∧ m ≠ [] := by
  unfold aspContentStartMatchAt at h
  split at h
  next t =>
    split at h
    next m0 t1 hst =>
      split at h
      next mid r' hsc =>
        simp only [Option.some.injEq, Prod.mk.injEq] at h
        obtain ⟨hm, hr⟩ := h
        subst hr
        have h2 := stripCI_append hst
        have h3 := scanUpto_eq_append hsc
        constructor
        · rw [← hm]
          simp only [List.append_assoc, List.cons_append, List.nil_append,
            List.cons.injEq, true_and]
          rw [h3, h2]
        · rw [← hm]
          simp
      next => cases h
    next => cases h
  next => cases h

theorem aspContentStartMatchAt_shrinking : Shrinking aspContentStartMatchAt := by
  intro s a r h
  obtain ⟨happ, hne⟩ := aspContentStartMatchAt_some h
  subst happ
  cases a with
  | nil => exact absurd rfl hne
  | cons x xs => simp; omega

theorem aspContentEndMatchAt_some {s m r : List Char}
    (h : aspContentEndMatchAt s = some (m, r)) :
    m ++ r = s ∧ m ≠ [] := by
  unfold aspContentEndMatchAt at h
  split at h
  next t =>
    split at h
    next m0 r' hst =>
      simp only [Option.some.injEq, Prod.mk.injEq] at h
      obtain ⟨hm, hr⟩ := h
      subst hr
      have h2 := stripCI_append hst
      constructor
      · rw [← hm]
        simp only [List.append_assoc, List.cons_append, List.nil_append,
          List.cons.injEq, true_and]
        rw [h2]
      · rw [← hm]
        simp
    next => cases h
  next => cases h

theorem aspContentEndMatchAt_shrinking : Shrinking aspContentEndMatchAt := by
  intro s a r h
  obtain ⟨happ, hne⟩ := aspContentEndMatchAt_some h
  subst happ
  cases a with
  | nil => exact absurd rfl hne
  | cons x xs => simp; omega

theorem aspCommentMatchAt_shrinking : Shrinking aspCommentMatchAt := by
  intro s a r h
  unfold aspCommentMatchAt at h
  split at h
  next t =>
    split at h
    next q1 q2 hsc =>
      simp only [Option.some.injEq, Prod.mk.injEq] at h
      obtain ⟨hm, hr⟩ := h
      subst hr
      have l1 := scanToSub_length_le hsc
      have l2 : (q2.drop 4).length ≤ q2.length := by simp
      simp only [List.length_cons]
      omega
    next => cases h
  next => cases h

theorem aspServerBlockMatchAt_shrinking : Shrinking aspServerBlockMatchAt := by
  intro s a r h
  unfold aspServerBlockMatchAt at h
  split at h
  next c t =>
    split at h
    next => cases h
    next =>
      split at h
      next q1 q2 hsc =>
        simp only [Option.some.injEq, Prod.mk.injEq] at h
        obtain ⟨hm, hr⟩ := h
        subst hr
        have l1 := scanToSub_length_le hsc
        have l2 : (q2.drop 2).length ≤ q2.length := by simp
        simp only [List.length_cons]
        omega
      next => cases h
  next => cases h

theorem sepLineMatchAt_some {s m r : List Char}
    (h : sepLineMatchAt s = some (m, r)) : r.length + 2 ≤ s.length := by
  unfold sepLineMatchAt at h
  split at h
  next t =>
    dsimp only at h
    split at h
    next hds =>
      split at h
      next r' heq =>
        simp only [Option.some.injEq, Prod.mk.injEq] at h
        obtain ⟨hm, hr⟩ := h
        subst hr
        have l1 := spanWs_snd_length t
        have l2 := dropWhile_length_le (· == '-') (spanWs t).2
        have l3 := spanWs_snd_length ((spanWs t).2.dropWhile (· == '-'))
        have l4 := congrArg List.length heq
        simp only [List.length_cons] at l4 ⊢
        omega
      next => cases h
    next => cases h
  next => cases h

theorem bannerTailMatchAt_le {s r : List Char}
    (h : bannerTailMatchAt s = some r) : r.length ≤ s.length := by
  unfold bannerTailMatchAt at h
  split at h
  next t2 heq2 =>
    split at h
    next t4 heq4 =>
      rcases hsl : sepLineMatchAt (spanWs t4).2 with _ | ⟨m', r'⟩
      · rw [hsl] at h; cases h
      · rw [hsl] at h
        simp only [Option.map_some', Option.some.injEq] at h
        subst h
        have l0 := sepLineMatchAt_some hsl
        have l1 := spanWs_snd_length s
        have l2 : t2.length + 2 = (spanWs s).2.length := by rw [heq2]; simp
        have l3 := spanWs_snd_length t2
        have l4 : t4.length + 2 = (spanWs t2).2.length := by rw [heq4]; simp
        have l5 := spanWs_snd_length t4
        omega
    next => cases h
  next => cases h

theorem bannerCapture_le {s cap r : List Char}
    (h : bannerCapture s = some (cap, r)) : r.length ≤ s.length := by
  induction s generalizing cap with
  | nil =>
      rcases ht : bannerTailMatchAt [] with _ | r'
      · simp [bannerCapture, ht] at h
      · simp [bannerCapture, ht] at h
        obtain ⟨hcap, hr⟩ := h
        subst hr
        simpa using bannerTailMatchAt_le ht
  | cons c t ih =>
      rcases ht : bannerTailMatchAt (c :: t) with _ | r'
      · rcases hc : bannerCapture t with _ | ⟨cap', r''⟩
        · simp [bannerCapture, ht, hc] at h
        · simp [bannerCapture, ht, hc] at h
          obtain ⟨hcap, hr⟩ := h
          subst hr
          have := ih hc
          simp
          omega
      · simp [bannerCapture, ht] at h
        obtain ⟨hcap, hr⟩ := h
        subst hr
        exact bannerTailMatchAt_le ht

theorem threeLineHeaderMatchAt_shrinking : Shrinking threeLineHeaderMatchAt := by
  intro s cap r h
  unfold threeLineHeaderMatchAt at h
  split at h
  next m1 t1 hsl =>
    split at h
    next t3 heq3 =>
      split at h
      next t5 heq5 =>
        have l0 : t1.length + 2 ≤ s.length := sepLineMatchAt_some hsl
        have l1 := spanWs_snd_length t1
        have l2 : t3.length + 2 = (spanWs t1).2.length := by rw [heq3]; simp
        have l3 := spanWs_snd_length t3
        have l4 : t5.length + 2 = (spanWs t3).2.length := by rw [heq5]; simp
        have l5 := spanWs_snd_length t5
        have l6 := bannerCapture_le h
        omega
      next => cases h
    next => cases h
  next => cases h

theorem pageDirectiveMatchAt_guard {c : Char} (t : List Char) (h : c ≠ '<') :
    pageDirectiveMatchAt (c :: t) = none := by
  unfold pageDirectiveMatchAt
  split
  next heq =>
    simp only [List.cons.injEq] at heq
    exact absurd heq.1 h
  next => rfl

theorem aspContentStartMatchAt_guard {c : Char} (t : List Char) (h : c ≠ '<') :
    aspContentStartMatchAt (c :: t) = none := by
  unfold aspContentStartMatchAt
  split
  next heq =>
    simp only [List.cons.injEq] at heq
    exact absurd heq.1 h
  next => rfl

theorem aspContentEndMatchAt_guard {c : Char} (t : List Char) (h : c ≠ '<') :
    aspContentEndMatchAt (c :: t) = none := by
  unfold aspContentEndMatchAt
  split
  next heq =>
    simp only [List.cons.injEq] at heq
    exact absurd heq.1 h
  next => rfl

theorem aspCommentMatchAt_guard {c : Char} (t : List Char) (h : c ≠ '<') :
    aspCommentMatchAt (c :: t) = none := by
  unfold aspCommentMatchAt
  split
  next heq =>
    simp only [List.cons.injEq] at heq
    exact absurd heq.1 h
  next => rfl

theorem aspServerBlockMatchAt_guard {c : Char} (t : List Char) (h : c ≠ '<') :
    aspServerBlockMatchAt (c :: t) = none := by
  unfold aspServerBlockMatchAt
  split
  next heq =>
    simp only [List.cons.injEq] at heq
    exact absurd heq.1 h
  next => rfl

theorem sepLineMatchAt_guard {c : Char} (t : List Char) (h : c ≠ '<') :
    sepLineMatchAt (c :: t) = none := by
  unfold sepLineMatchAt
  split
  next heq =>
    simp only [List.cons.injEq] at heq
    exact absurd heq.1 h
  next => rfl

theorem threeLineHeaderMatchAt_guard {c : Char} (t : List Char) (h : c ≠ '<') :
    threeLineHeaderMatchAt (c :: t) = none := by
  unfold threeLineHeaderMatchAt
  rw [sepLineMatchAt_guard t h]

/-!
Skip lemmas: `reSearch` and `reSub` pass unchanged over a region at whose
positions the matcher fails — either because the region is listed
position by position (`FailsAlong`, discharged by computation for concrete
prefixes), or because the matcher requires a `<` and the region contains
none.
-/

/-- The matcher fails at every position inside `xs` (with `r` following). -/
def FailsAlong (M : List Char → Option (α × List Char)) :
    List Char → List Char → Prop
  | [], _ => True
  | c :: t, r => M (c :: (t ++ r)) = none ∧ FailsAlong M t r

theorem reSub_skip {M : List Char → Option (α × List Char)} {rep}
    {xs r : List Char} (h : FailsAlong M xs r) :
    reSub M rep (xs ++ r) = xs ++ reSub M rep r := by
  induction xs with
  | nil => rfl
  | cons c t ih =>
      obtain ⟨h1, h2⟩ := h
      rw [List.cons_append, reSub_cons_none h1, ih h2]
      simp

theorem reSearch_skip {M : List Char → Option (α × List Char)}
    {xs r : List Char} (h : FailsAlong M xs r) :
    reSearch M (xs ++ r) = reSearch M r := by
  induction xs with
  | nil => rfl
  | cons c t ih =>
      obtain ⟨h1, h2⟩ := h
      rw [List.cons_append, reSearch_cons_none h1, ih h2]

theorem failsAlong_of_no_lt {M : List Char → Option (α × List Char)}
    (hG : ∀ (c : Char) (t : List Char), c ≠ '<' → M (c :: t) = none)
    {xs : List Char} (r : List Char) (hx : '<' ∉ xs) : FailsAlong M xs r := by
  induction xs with
  | nil => trivial
  | cons c t ih =>
      simp only [List.mem_cons, not_or] at hx
      exact ⟨hG c (t ++ r) (fun he => hx.1 he.symm), ih hx.2⟩

theorem failsAlong_append {M : List Char → Option (α × List Char)}
    {xs ys r : List Char} (h1 : FailsAlong M xs (ys ++ r))
    (h2 : FailsAlong M ys r) : FailsAlong M (xs ++ ys) r := by
  induction xs with
  | nil => exact h2
  | cons c t ih =>
      obtain ⟨ha, hb⟩ := h1
      refine ⟨?_, ih hb⟩
      simpa using ha

theorem reSub_skip_no_lt {M : List Char → Option (α × List Char)} {rep}
    (hG : ∀ (c : Char) (t : List Char), c ≠ '<' → M (c :: t) = none)
    {xs : List Char} (r : List Char) (hx : '<' ∉ xs) :
    reSub M rep (xs ++ r) = xs ++ reSub M rep r :=
  reSub_skip (failsAlong_of_no_lt hG r hx)

theorem reSearch_skip_no_lt {M : List Char → Option (α × List Char)}
    (hG : ∀ (c : Char) (t : List Char), c ≠ '<' → M (c :: t) = none)
    {xs : List Char} (r : List Char) (hx : '<' ∉ xs) :
    reSearch M (xs ++ r) = reSearch M r :=
  reSearch_skip (failsAlong_of_no_lt hG r hx)

/-- The fixed common head of the output (source: `COMMON_HEAD_TEMPLATE`),
with the substitution slot for the title. -/
def COMMON_HEAD_TEMPLATE : List Char :=
  ("<head>\n    <meta charset=\"UTF-8\">\n    <title>\x7b\x7bTITLE\x7d\x7d</title>\n\n    <!-- CSS -->\n    <link rel=\"stylesheet\" href=\"Content/jquery-ui.min.css\">\n    <link rel=\"stylesheet\" href=\"Content/tabulator/tabulator.min.css\">\n\n    <!-- JS base -->\n    <script src=\"Scripts/jquery-3.7.1.min.js\"></script>\n    <script src=\"Scripts/jquery-ui.min.js\"></script>\n\n    <!-- FontAwesome -->\n    <script src=\"Scripts/FontAwesome/fontawesome.min.js\"></script>\n    <script src=\"Scripts/FontAwesome/solid.min.js\"></script>\n    <script src=\"Scripts/FontAwesome/regular.min.js\"></script>\n\n    <!-- App common -->\n    <script src=\"Scripts/mvp.js\"></script>\n</head>\n").data

/-- The title slot of the head template. -/
def titleSlot : List Char := ("\x7b\x7bTITLE\x7d\x7d").data

/-- The part of the head template before the title slot. -/
def headPre : List Char := ("<head>\n    <meta charset=\"UTF-8\">\n    <title>").data

/-- The part of the head template after the title slot. -/
def headPost : List Char := ("</title>\n\n    <!-- CSS -->\n    <link rel=\"stylesheet\" href=\"Content/jquery-ui.min.css\">\n    <link rel=\"stylesheet\" href=\"Content/tabulator/tabulator.min.css\">\n\n    <!-- JS base -->\n    <script src=\"Scripts/jquery-3.7.1.min.js\"></script>\n    <script src=\"Scripts/jquery-ui.min.js\"></script>\n\n    <!-- FontAwesome -->\n    <script src=\"Scripts/FontAwesome/fontawesome.min.js\"></script>\n    <script src=\"Scripts/FontAwesome/solid.min.js\"></script>\n    <script src=\"Scripts/FontAwesome/regular.min.js\"></script>\n\n    <!-- App common -->\n    <script src=\"Scripts/mvp.js\"></script>\n</head>\n").data

/-- Matcher embedding Python `str.replace(titleSlot, ...)`: a "match" is an
occurrence of the literal `titleSlot` at this position.  `str.replace`
replaces non-overlapping occurrences left to right, which is exactly
`reSub` with this matcher. -/
def titleSlotMatchAt (s : List Char) : Option (Unit × List Char) :=
  if titleSlot.isPrefixOf s then some ((), s.drop titleSlot.length) else none

/-- Embedding of `COMMON_HEAD_TEMPLATE.replace("{{TITLE}}", title)`. -/
def renderHead (title : List Char) : List Char :=
  reSub titleSlotMatchAt (fun _ => title) COMMON_HEAD_TEMPLATE

/-- The default title (source line 67). -/
def UNTITLED : List Char := "Untitled Page".data

/-- Title extraction (source lines 66-72): search for the first page
directive; within its group 0, search for the first title attribute;
default to "Untitled Page". -/
def titleOf (text : List Char) : List Char :=
  match reSearch pageDirectiveMatchAt text with
  | some block =>
      match reSearch titleMatchAt block with
      | some v => v
      | none => UNTITLED
  | none => UNTITLED

/-- Replacement used by `header_replacer` (source lines 78-79):
the captured group 1, stripped, wrapped in an HTML comment. -/
def bannerRep (cap : List Char) : List Char :=
  "<!-- ----------- ".data ++ pyStrip cap ++ " ----------- -->".data

/-- Replacement for the deleting substitutions (`sub("")`). -/
def delRep : α → List Char := fun _ => []

/-- The substitution pipeline of `convert_aspx_to_html` (source lines
74-91): delete page directives, convert three-line banners, delete
content-region tags, delete server comments, delete server blocks, then
strip; the result is the `body` of the output. -/
def bodyOf (text : List Char) : List Char :=
  let t1 := reSub pageDirectiveMatchAt delRep text
  let t2 := reSub threeLineHeaderMatchAt bannerRep t1
  let t3 := reSub aspContentStartMatchAt delRep t2
  let t4 := reSub aspContentEndMatchAt delRep t3
  let t5 := reSub aspCommentMatchAt delRep t4
  let t6 := reSub aspServerBlockMatchAt delRep t5
  pyStrip t6

/-- Document prefix of the output f-string (source lines 94-95). -/
def docPre : List Char := "<!DOCTYPE html>\n<html lang=\"ja\">\n".data

/-- Text between the head and the body in the output f-string. -/
def bodyPre : List Char := "\n<body>\n\n".data

/-- Document suffix of the output f-string. -/
def bodySuf : List Char := "\n\n</body>\n</html>\n".data

/-- Embedding of `convert_aspx_to_html` (source lines 57-103), minus the
file I/O: the complete HTML text written for a given input text. -/
def convert_aspx_to_html (text : List Char) : List Char :=
  docPre ++ renderHead (titleOf text) ++ bodyPre ++ bodyOf text ++ bodySuf

theorem isPrefixOf_length_le {pat s : List Char} (h : pat.isPrefixOf s = true) :
    pat.length ≤ s.length := by
  induction pat generalizing s with
  | nil => simp
  | cons p ps ih =>
      cases s with
      | nil => simp [List.isPrefixOf] at h
      | cons c t =>
          simp only [List.isPrefixOf, Bool.and_eq_true, beq_iff_eq] at h
          have := ih h.2
          simp only [List.length_cons]
          omega

theorem titleSlotMatchAt_shrinking : Shrinking titleSlotMatchAt := by
  intro s a r h
  unfold titleSlotMatchAt at h
  split at h
  next hp =>
    simp only [Option.some.injEq, Prod.mk.injEq] at h
    have hlen := isPrefixOf_length_le hp
    rw [← h.2]
    simp only [List.length_drop]
    have : titleSlot.length = 9 := by decide
    omega
  next => cases h

theorem template_split :
    COMMON_HEAD_TEMPLATE = headPre ++ titleSlot ++ headPost := by decide

theorem failsAlongB_headPre :
    FailsAlong titleSlotMatchAt headPre (titleSlot ++ headPost) := by
  repeat constructor

theorem reSearch_slot_headPost : reSearch titleSlotMatchAt headPost = none := by decide

theorem slot_at_slot :
    titleSlotMatchAt (titleSlot ++ headPost) = some ((), headPost) := by decide

theorem renderHead_eq (t : List Char) : renderHead t = headPre ++ t ++ headPost := by
  unfold renderHead
  rw [template_split, List.append_assoc, reSub_skip failsAlongB_headPre,
    reSub_match titleSlotMatchAt_shrinking slot_at_slot,
    reSub_of_search_none reSearch_slot_headPost]
  simp

/-- Decomposition of the assembled output: everything except the title and
the body is the fixed skeleton. -/
theorem convert_decomp (text : List Char) :
    convert_aspx_to_html text =
      docPre ++ headPre ++ titleOf text ++ headPost ++ bodyPre ++ bodyOf text ++ bodySuf := by
  unfold convert_aspx_to_html
  rw [renderHead_eq]
  simp [List.append_assoc]

/-!
Toolbox about `containsSub`, `dropWhile` and `pyStrip` used to relate the
pipeline output to the assembled document.
-/

theorem isPrefixOf_append_self (pat b : List Char) :
    pat.isPrefixOf (pat ++ b) = true := by
  induction pat with
  | nil => simp [List.isPrefixOf]
  | cons p ps ih => simp [List.isPrefixOf, ih]

theorem isPrefixOf_iff_exists {pat s : List Char} :
    pat.isPrefixOf s = true ↔ ∃ r, pat ++ r = s := by
  induction pat generalizing s with
  | nil => simp [List.isPrefixOf]
  | cons p ps ih =>
      cases s with
      | nil => simp [List.isPrefixOf]
      | cons c t =>
          simp only [List.isPrefixOf, Bool.and_eq_true, beq_iff_eq, ih]
          constructor
          · rintro ⟨hp, r, hr⟩
            exact ⟨r, by simp [hp, hr]⟩
          · rintro ⟨r, hr⟩
            simp only [List.cons_append, List.cons.injEq] at hr
            exact ⟨hr.1, r, hr.2⟩

theorem containsSub_iff_exists {m s : List Char} :
    containsSub m s = true ↔ ∃ a b, s = a ++ m ++ b := by
  induction s with
  | nil =>
      simp only [containsSub, List.isEmpty_iff]
      constructor
      · rintro rfl
        exact ⟨[], [], rfl⟩
      · rintro ⟨a, b, hab⟩
        rcases List.append_eq_nil.mp (List.append_eq_nil.mp hab.symm).1 with ⟨-, h2⟩
        exact h2
  | cons c t ih =>
      simp only [containsSub, Bool.or_eq_true, ih, isPrefixOf_iff_exists]
      constructor
      · rintro (⟨r, hr⟩ | ⟨a, b, hab⟩)
        · exact ⟨[], r, by simp [hr]⟩
        · exact ⟨c :: a, b, by simp [hab]⟩
      · rintro ⟨a, b, hab⟩
        cases a with
        | nil =>
            left
            exact ⟨b, by simpa using hab.symm⟩
        | cons x a' =>
            right
            simp only [List.cons_append, List.cons.injEq] at hab
            exact ⟨a', b, hab.2⟩

theorem containsSub_of_parts (m a b : List Char) :
    containsSub m (a ++ m ++ b) = true :=
  containsSub_iff_exists.mpr ⟨a, b, rfl⟩

theorem containsSub_extend {m s : List Char} (a b : List Char)
    (h : containsSub m s = true) : containsSub m (a ++ s ++ b) = true := by
  obtain ⟨x, y, hxy⟩ := containsSub_iff_exists.mp h
  refine containsSub_iff_exists.mpr ⟨a ++ x, y ++ b, ?_⟩
  subst hxy
  simp

theorem dropWhile_append_of_ne_nil {p : Char → Bool} {a : List Char}
    (h : a.dropWhile p ≠ []) (b : List Char) :
    (a ++ b).dropWhile p = a.dropWhile p ++ b := by
  induction a with
  | nil => simp at h
  | cons c t ih =>
      by_cases hc : p c
      · simp only [List.dropWhile_cons, hc, if_true, List.cons_append] at h ⊢
        exact ih h
      · simp [List.dropWhile_cons, hc]

theorem dropWhile_append_all {p : Char → Bool} {a : List Char}
    (h : ∀ x ∈ a, p x = true) (b : List Char) :
    (a ++ b).dropWhile p = b.dropWhile p := by
  induction a with
  | nil => simp
  | cons c t ih =>
      have hc := h c (by simp)
      simp only [List.cons_append, List.dropWhile_cons, hc, if_true]
      exact ih (fun x hx => h x (by simp [hx]))

theorem dropWhile_head_false {p : Char → Bool} {s t : List Char} {c : Char}
    (h : s.dropWhile p = c :: t) : p c = false := by
  induction s with
  | nil => simp at h
  | cons x xs ih =>
      cases hpx : p x with
      | true =>
          simp only [List.dropWhile_cons, hpx, if_true] at h
          exact ih h
      | false =>
          simp only [List.dropWhile_cons, hpx, Bool.false_eq_true, if_false,
            List.cons.injEq] at h
          rw [← h.1]
          exact hpx

theorem dropWhile_idem (p : Char → Bool) (s : List Char) :
    (s.dropWhile p).dropWhile p = s.dropWhile p := by
  cases h : s.dropWhile p with
  | nil => rfl
  | cons c t =>
      have := dropWhile_head_false h
      simp [List.dropWhile_cons, this]

/-- Right strip: drop trailing whitespace. -/
def rstripWs (s : List Char) : List Char :=
  (s.reverse.dropWhile isPySpace).reverse

theorem pyStrip_eq_rstrip_dropWhile (s : List Char) :
    pyStrip s = rstripWs (s.dropWhile isPySpace) := rfl

theorem rstrip_all {s : List Char} (h : ∀ x ∈ s, isPySpace x = true) :
    rstripWs s = [] := by
  unfold rstripWs
  have h2 : s.reverse.dropWhile isPySpace = [] := by
    rw [List.dropWhile_eq_nil_iff]
    intro x hx
    exact h x (by simpa using hx)
  simp [h2]

theorem rstrip_cons {c : Char} {t : List Char}
    (h : ¬∀ x ∈ c :: t, isPySpace x = true) :
    rstripWs (c :: t) = c :: rstripWs t := by
  unfold rstripWs
  by_cases ht : ∀ x ∈ t, isPySpace x = true
  · have hc : isPySpace c = false := by
      by_cases hcc : isPySpace c
      · exact absurd (fun x hx => by rcases List.mem_cons.mp hx with rfl | hm
                                     · exact hcc
                                     · exact ht x hm) h
      · simpa using hcc
    have h1 : t.reverse.dropWhile isPySpace = [] := by
      have : ∀ x ∈ t.reverse, isPySpace x = true := fun x hx => ht x (by simpa using hx)
      simpa using dropWhile_append_all this []
    simp only [List.reverse_cons]
    rw [dropWhile_append_all (fun x hx => ht x (by simpa using hx)) [c]]
    simp [List.dropWhile_cons, hc, h1]
  · have h1 : t.reverse.dropWhile isPySpace ≠ [] := by
      rw [Ne, List.dropWhile_eq_nil_iff]
      intro hx
      exact ht (fun x hxt => hx x (by simpa using hxt))
    rw [List.reverse_cons, dropWhile_append_of_ne_nil h1 [c]]
    simp

theorem pyStrip_ws_cons {c : Char} (h : isPySpace c = true) (s : List Char) :
    pyStrip (c :: s) = pyStrip s := by
  simp [pyStrip, List.dropWhile_cons, h]

theorem rstrip_cons_not_all {c : Char} {t : List Char}
    (h : isPySpace c = false) :
    rstripWs (c :: t) = c :: rstripWs t := by
  apply rstrip_cons
  intro hall
  have := hall c (by simp)
  rw [this] at h
  cases h

theorem pyStrip_of_ends {c d : Char} (h1 : isPySpace c = false)
    (h2 : isPySpace d = false) (mid : List Char) :
    pyStrip (c :: (mid ++ [d])) = c :: (mid ++ [d]) := by
  rw [pyStrip_eq_rstrip_dropWhile]
  rw [List.dropWhile_cons]
  simp only [h1, Bool.false_eq_true, if_false]
  rw [rstrip_cons_not_all h1]
  unfold rstripWs
  simp only [List.reverse_append, List.reverse_cons, List.reverse_nil,
    List.nil_append, List.cons_append, List.dropWhile_cons, h2,
    Bool.false_eq_true, if_false]
  simp

theorem rstrip_idem (s : List Char) : rstripWs (rstripWs s) = rstripWs s := by
  unfold rstripWs
  rw [List.reverse_reverse, dropWhile_idem]

theorem lstrip_rstrip_of_lstripped {s : List Char}
    (h : s.dropWhile isPySpace = s) :
    (rstripWs s).dropWhile isPySpace = rstripWs s := by
  cases s with
  | nil => rfl
  | cons c t =>
      have hc : isPySpace c = false := by
        by_contra hcc
        simp only [Bool.not_eq_false] at hcc
        rw [List.dropWhile_cons, hcc, if_pos rfl] at h
        have := congrArg List.length h
        have h2 := dropWhile_length_le isPySpace t
        simp at this
        omega
      rw [rstrip_cons_not_all hc, List.dropWhile_cons, hc]
      simp

theorem pyStrip_idem (s : List Char) : pyStrip (pyStrip s) = pyStrip s := by
  rw [pyStrip_eq_rstrip_dropWhile, pyStrip_eq_rstrip_dropWhile]
  rw [lstrip_rstrip_of_lstripped (dropWhile_idem isPySpace s), rstrip_idem]

theorem exists_lstrip_parts {z : List Char} (hz : z.dropWhile isPySpace = z) :
    ∀ a : List Char, ∃ x, (a ++ z).dropWhile isPySpace = x ++ z := by
  intro a
  by_cases h : a.dropWhile isPySpace = []
  · refine ⟨[], ?_⟩
    rw [dropWhile_append_all (List.dropWhile_eq_nil_iff.mp h) z, hz]
    simp
  · exact ⟨a.dropWhile isPySpace, dropWhile_append_of_ne_nil h z⟩

theorem exists_pyStrip_parts {c d : Char} (h1 : isPySpace c = false)
    (h2 : isPySpace d = false) (mid : List Char) :
    ∀ a b : List Char,
      ∃ x y, pyStrip (a ++ (c :: (mid ++ [d])) ++ b) = x ++ (c :: (mid ++ [d])) ++ y := by
  intro a b
  have hm : (c :: (mid ++ [d])).dropWhile isPySpace = c :: (mid ++ [d]) := by
    rw [List.dropWhile_cons, h1]
    simp
  rw [pyStrip_eq_rstrip_dropWhile]
  have step1 : ∃ x, ((a ++ (c :: (mid ++ [d])) ++ b)).dropWhile isPySpace =
      x ++ ((c :: (mid ++ [d])) ++ b) := by
    have := exists_lstrip_parts (z := c :: (mid ++ [d]) ++ b) ?_ a
    · simpa [List.append_assoc] using this
    · cases hb : (c :: (mid ++ [d]) ++ b) with
      | nil => simp at hb
      | cons e u =>
          have : e = c := by
            simp only [List.cons_append, List.cons.injEq] at hb
            exact hb.1.symm
          subst this
          rw [List.dropWhile_cons, h1]
          simp
  obtain ⟨x, hx⟩ := step1
  rw [hx]
  unfold rstripWs
  have hrev : (x ++ (c :: (mid ++ [d]) ++ b)).reverse =
      b.reverse ++ (d :: (mid.reverse ++ [c])) ++ x.reverse := by
    simp [List.reverse_append, List.reverse_cons]
  rw [hrev]
  have hm2 : (d :: (mid.reverse ++ [c])).dropWhile isPySpace =
      d :: (mid.reverse ++ [c]) := by
    rw [List.dropWhile_cons, h2]
    simp
  have step2 : ∃ y, (b.reverse ++ (d :: (mid.reverse ++ [c])) ++ x.reverse).dropWhile isPySpace =
      y ++ ((d :: (mid.reverse ++ [c])) ++ x.reverse) := by
    have := exists_lstrip_parts (z := d :: (mid.reverse ++ [c]) ++ x.reverse) ?_ b.reverse
    · simpa [List.append_assoc] using this
    · rw [List.cons_append, List.dropWhile_cons, h2]
      simp
  obtain ⟨y, hy⟩ := step2
  rw [List.append_assoc] at hy
  simp only [List.append_assoc]
  rw [hy]
  refine ⟨x, y.reverse, ?_⟩
  simp [List.reverse_append, List.reverse_cons, List.append_assoc]

theorem scanUpto_append_found {p : Char → Bool} {xs : List Char}
    (h : ∀ x ∈ xs, p x = false) {d : Char} (hd : p d = true) (r : List Char) :
    scanUpto p (xs ++ d :: r) = some (xs, d :: r) := by
  induction xs with
  | nil => simp [scanUpto, hd]
  | cons c t ih =>
      have hc := h c (by simp)
      simp only [List.cons_append, scanUpto, hc, Bool.false_eq_true, if_false,
        List.append_eq]
      rw [ih (fun x hx => h x (by simp [hx]))]
      rfl

theorem pageScanTail_found {attrs : List Char}
    (h : ∀ x ∈ attrs, ¬x = '%') (w pg : List Char) (c : Char) (rest : List Char) :
    pageScanTail w pg c (attrs ++ '%' :: '>' :: rest) =
      some ('<' :: '%' :: '@' :: (w ++ pg ++ c :: attrs ++ ['%', '>']), rest) := by
  unfold pageScanTail
  rw [scanUpto_append_found (fun x hx => by simpa using h x hx) (by simp) ('>' :: rest)]
  rfl

theorem pageDirectiveMatchAt_pre (Y : List Char) :
    pageDirectiveMatchAt ("<%@ Page ".data ++ Y) =
      pageScanTail [' '] "Page".data ' ' Y := rfl

theorem pageDirectiveMatchAt_block {attrs : List Char} (rest : List Char)
    (h : ∀ x ∈ attrs, ¬x = '%') :
    pageDirectiveMatchAt ("<%@ Page ".data ++ (attrs ++ ('%' :: '>' :: rest))) =
      some ("<%@ Page ".data ++ (attrs ++ ['%', '>']), rest) := by
  rw [pageDirectiveMatchAt_pre, pageScanTail_found h]
  have hd : ("<%@ Page ".data : List Char) =
      '<' :: '%' :: '@' :: ' ' :: 'P' :: 'a' :: 'g' :: 'e' :: ' ' :: [] := rfl
  have hp : ("Page".data : List Char) = 'P' :: 'a' :: 'g' :: 'e' :: [] := rfl
  rw [hd, hp]
  simp

theorem titleScanTail_found {v : List Char} (hv : v ≠ [])
    (h : ∀ x ∈ v, ¬x = '"') (rest : List Char) :
    titleScanTail (v ++ '"' :: rest) = some (v, rest) := by
  unfold titleScanTail
  rw [scanUpto_append_found (fun x hx => by simpa using h x hx) (by simp) rest]
  simp [List.isEmpty_iff, hv]

theorem titleMatchAt_pre (Y : List Char) :
    titleMatchAt ("Title=\"".data ++ Y) = titleScanTail Y := rfl

theorem titleMatchAt_attr {v : List Char} (hv : v ≠ [])
    (h : ∀ x ∈ v, ¬x = '"') (rest : List Char) :
    titleMatchAt ("Title=\"".data ++ (v ++ '"' :: rest)) = some (v, rest) := by
  rw [titleMatchAt_pre, titleScanTail_found hv h]

theorem mem_of_mem_dropWhile {p : Char → Bool} {x : Char} {l : List Char}
    (h : x ∈ l.dropWhile p) : x ∈ l := by
  induction l with
  | nil => simp at h
  | cons c t ih =>
      by_cases hc : p c
      · simp only [List.dropWhile_cons, hc, if_true] at h
        exact List.mem_cons_of_mem c (ih h)
      · simp only [List.dropWhile_cons, hc, Bool.false_eq_true, if_false] at h
        exact h

theorem bannerTailMatchAt_none (xs r : List Char)
    (hno : ∀ x ∈ xs, ¬x = '-') (hnw : ¬∀ x ∈ xs, isPySpace x = true) :
    bannerTailMatchAt (xs ++ r) = none := by
  have h1 : xs.dropWhile isPySpace ≠ [] := by
    rw [Ne, List.dropWhile_eq_nil_iff]
    exact hnw
  cases hdw : xs.dropWhile isPySpace with
  | nil => exact absurd hdw h1
  | cons d u =>
      have hd : d ∈ xs := mem_of_mem_dropWhile (hdw ▸ List.mem_cons_self d u)
      have hscan : (spanWs (xs ++ r)).2 = d :: (u ++ r) := by
        show (xs ++ r).dropWhile isPySpace = _
        rw [dropWhile_append_of_ne_nil h1 r, hdw]
        simp
      unfold bannerTailMatchAt
      rw [hscan]
      split
      next heq =>
        simp only [List.cons.injEq] at heq
        exact absurd heq.1 (hno d hd)
      next => rfl

theorem bannerTailMatchAt_ws {xs : List Char} (h : ∀ x ∈ xs, isPySpace x = true) :
    bannerTailMatchAt (xs ++ " --%>\n<%---%>".data) = some [] := by
  have hscan : (spanWs (xs ++ " --%>\n<%---%>".data)).2 = "--%>\n<%---%>".data := by
    show (xs ++ " --%>\n<%---%>".data).dropWhile isPySpace = _
    rw [dropWhile_append_all h]
    rfl
  unfold bannerTailMatchAt
  rw [hscan]
  rfl

theorem bannerCapture_inner {inner : List Char}
    (h : ∀ x ∈ inner, ¬x = '-' ∧ ¬x = '%') :
    bannerCapture (inner ++ " --%>\n<%---%>".data) = some (rstripWs inner, []) := by
  induction inner with
  | nil => decide
  | cons c t ih =>
      by_cases hall : ∀ x ∈ c :: t, isPySpace x = true
      · have hbt := bannerTailMatchAt_ws hall
        rw [List.cons_append]
        simp only [bannerCapture]
        rw [← List.cons_append, hbt, rstrip_all hall]
      · have hbt := bannerTailMatchAt_none (c :: t)
          (" --%>\n<%---%>".data) (fun x hx => (h x hx).1) hall
        rw [List.cons_append]
        simp only [bannerCapture]
        rw [← List.cons_append, hbt, ih (fun x hx => h x (by simp [hx])),
          rstrip_cons hall]
        rfl

theorem threeLineHeaderMatchAt_banner_pre (Y : List Char) :
    threeLineHeaderMatchAt ("<%---%>\n<%-- ".data ++ Y) =
      bannerCapture (Y.dropWhile isPySpace) := rfl

theorem threeLineHeaderMatchAt_banner {inner : List Char}
    (h : ∀ x ∈ inner, ¬x = '-' ∧ ¬x = '%') :
    threeLineHeaderMatchAt
        ("<%---%>\n<%-- ".data ++ (inner ++ " --%>\n<%---%>".data)) =
      some (pyStrip inner, []) := by
  rw [threeLineHeaderMatchAt_banner_pre, pyStrip_eq_rstrip_dropWhile]
  by_cases hd : inner.dropWhile isPySpace = []
  · rw [dropWhile_append_all (fun x hx => List.dropWhile_eq_nil_iff.mp hd x hx), hd]
    decide
  · rw [dropWhile_append_of_ne_nil hd,
      bannerCapture_inner (fun x hx => h x (mem_of_mem_dropWhile hx))]

theorem reSearch_none_of_no_lt {M : List Char → Option (α × List Char)}
    (hG : ∀ (c : Char) (t : List Char), c ≠ '<' → M (c :: t) = none)
    (hM0 : M [] = none) {s : List Char} (h : '<' ∉ s) : reSearch M s = none := by
  induction s with
  | nil => simp [reSearch, hM0]
  | cons c t ih =>
      simp only [List.mem_cons, not_or] at h
      rw [reSearch_cons_none (hG c t (fun he => h.1 he.symm))]
      exact ih h.2

/-!
Model of the Driver (`main`, source lines 112-138).  The file system is
abstracted to what `main` inspects: whether the input path exists and is a
directory, and the stem/content list produced by `glob("*.aspx")`.  The
outcome records what `main` does: whether it raises the `ValueError`
(before any other action), whether it creates the output directory,
whether it prints the no-files notice, and which files it writes.
-/

structure FileSys where
  inputExists : Bool
  inputIsDir : Bool
  aspxFiles : List (String × List Char)

structure DriverOutcome where
  fatal : Bool
  createdOutputDir : Bool
  notice : Bool
  written : List (String × List Char)

/-- Embedding of `main`: validate the input directory (raising before any
processing otherwise), create the output directory, then either report
that no files were found or convert each file in turn. -/
def mainDriver (fs : FileSys) : DriverOutcome :=
  if fs.inputExists && fs.inputIsDir then
    if fs.aspxFiles.isEmpty then
      { fatal := false, createdOutputDir := true, notice := true, written := [] }
    else
      { fatal := false, createdOutputDir := true, notice := false,
        written := fs.aspxFiles.map
          (fun f => (f.1 ++ ".html", convert_aspx_to_html f.2)) }
  else
    { fatal := true, createdOutputDir := false, notice := false, written := [] }

/-- The HTML comment produced for a banner whose trimmed inner text is `w`. -/
def bannerComment (w : List Char) : List Char :=
  "<!-- ----------- ".data ++ (w ++ " ----------- -->".data)

theorem reSearch_none_bannerComment {α : Type} {M : List Char → Option (α × List Char)}
    (hG : ∀ (c : Char) (t : List Char), c ≠ '<' → M (c :: t) = none)
    (hM0 : M [] = none) {w : List Char} (hw : '<' ∉ w)
    (h0 : M (bannerComment w) = none) :
    reSearch M (bannerComment w) = none := by
  have hsplit : bannerComment w =
      '<' :: ("!-- ----------- ".data ++ (w ++ " ----------- -->".data)) := rfl
  rw [hsplit] at h0 ⊢
  rw [reSearch_cons_none h0]
  apply reSearch_none_of_no_lt hG hM0
  intro hmem
  simp only [List.mem_append] at hmem
  rcases hmem with h1 | h2 | h3
  · revert h1; decide
  · exact hw h2
  · revert h3; decide

theorem bannerComment_ends (w : List Char) :
    bannerComment w =
      '<' :: (("!-- ----------- ".data ++ (w ++ " ----------- --".data)) ++ ['>']) := by
  unfold bannerComment
  rw [show (" ----------- -->".data : List Char) = " ----------- --".data ++ ['>'] from rfl,
    show ("<!-- ----------- ".data : List Char) = '<' :: "!-- ----------- ".data from rfl]
  simp [List.append_assoc]

theorem pyStrip_bannerComment (w : List Char) :
    pyStrip (bannerComment w) = bannerComment w := by
  rw [bannerComment_ends, pyStrip_of_ends (by decide) (by decide)]

theorem search_page_bannerComment {w : List Char} (hw : '<' ∉ w) :
    reSearch pageDirectiveMatchAt (bannerComment w) = none :=
  reSearch_none_bannerComment (fun _ t hc => pageDirectiveMatchAt_guard t hc)
    (shrinking_nil_none pageDirectiveMatchAt_shrinking) hw rfl

theorem search_tlh_bannerComment {w : List Char} (hw : '<' ∉ w) :
    reSearch threeLineHeaderMatchAt (bannerComment w) = none :=
  reSearch_none_bannerComment (fun _ t hc => threeLineHeaderMatchAt_guard t hc)
    (shrinking_nil_none threeLineHeaderMatchAt_shrinking) hw rfl

theorem search_contentStart_bannerComment {w : List Char} (hw : '<' ∉ w) :
    reSearch aspContentStartMatchAt (bannerComment w) = none :=
  reSearch_none_bannerComment (fun _ t hc => aspContentStartMatchAt_guard t hc)
    (shrinking_nil_none aspContentStartMatchAt_shrinking) hw rfl

theorem search_contentEnd_bannerComment {w : List Char} (hw : '<' ∉ w) :
    reSearch aspContentEndMatchAt (bannerComment w) = none :=
  reSearch_none_bannerComment (fun _ t hc => aspContentEndMatchAt_guard t hc)
    (shrinking_nil_none aspContentEndMatchAt_shrinking) hw rfl

theorem search_aspComment_bannerComment {w : List Char} (hw : '<' ∉ w) :
    reSearch aspCommentMatchAt (bannerComment w) = none :=
  reSearch_none_bannerComment (fun _ t hc => aspCommentMatchAt_guard t hc)
    (shrinking_nil_none aspCommentMatchAt_shrinking) hw rfl

theorem search_serverBlock_bannerComment {w : List Char} (hw : '<' ∉ w) :
    reSearch aspServerBlockMatchAt (bannerComment w) = none :=
  reSearch_none_bannerComment (fun _ t hc => aspServerBlockMatchAt_guard t hc)
    (shrinking_nil_none aspServerBlockMatchAt_shrinking) hw rfl

theorem bodyOf_bannerComment {w : List Char} (hw : '<' ∉ w) :
    bodyOf (bannerComment w) = bannerComment w := by
  show pyStrip
      (reSub aspServerBlockMatchAt delRep
        (reSub aspCommentMatchAt delRep
          (reSub aspContentEndMatchAt delRep
            (reSub aspContentStartMatchAt delRep
              (reSub threeLineHeaderMatchAt bannerRep
                (reSub pageDirectiveMatchAt delRep (bannerComment w))))))) =
      bannerComment w
  rw [reSub_of_search_none (search_page_bannerComment hw),
    reSub_of_search_none (search_tlh_bannerComment hw),
    reSub_of_search_none (search_contentStart_bannerComment hw),
    reSub_of_search_none (search_contentEnd_bannerComment hw),
    reSub_of_search_none (search_aspComment_bannerComment hw),
    reSub_of_search_none (search_serverBlock_bannerComment hw),
    pyStrip_bannerComment]

theorem reSearch_of_matchAt {M : List Char → Option (α × List Char)}
    (hM : Shrinking M) {s r : List Char} {a : α} (h : M s = some (a, r)) :
    reSearch M s = some a := by
  cases s with
  | nil => rw [shrinking_nil_none hM] at h; cases h
  | cons c t => exact reSearch_cons_some h

/-- First page directive found at the head of the remaining text. -/
theorem reSearch_page_at_block {xs attrs rest : List Char}
    (hxs : '<' ∉ xs) (ha : ∀ x ∈ attrs, ¬x = '%') :
    reSearch pageDirectiveMatchAt
        (xs ++ ("<%@ Page ".data ++ (attrs ++ ('%' :: '>' :: rest)))) =
      some ("<%@ Page ".data ++ (attrs ++ ['%', '>'])) := by
  rw [reSearch_skip_no_lt (fun _ t hc => pageDirectiveMatchAt_guard t hc) _ hxs]
  exact reSearch_of_matchAt pageDirectiveMatchAt_shrinking
    (pageDirectiveMatchAt_block rest ha)

/-- The first title attribute inside the standard block `Title="v"`. -/
theorem reSearch_title_in_block {v : List Char} (hv : v ≠ [])
    (hq : '"' ∉ v) :
    reSearch titleMatchAt
        ("<%@ Page ".data ++ (("Title=\"".data ++ (v ++ "\" ".data)) ++ ['%', '>'])) =
      some v := by
  have hshape : ("<%@ Page ".data : List Char) ++
        (("Title=\"".data ++ (v ++ "\" ".data)) ++ ['%', '>']) =
      "<%@ Page ".data ++ ("Title=\"".data ++ (v ++ ('"' :: (' ' :: ['%', '>'])))) := by
    rw [show ("\" ".data : List Char) = '"' :: [' '] from rfl]
    simp [List.append_assoc]
  rw [hshape]
  rw [reSearch_skip (by repeat constructor)]
  exact reSearch_of_matchAt titleMatchAt_shrinking
    (titleMatchAt_attr hv (fun x hx hq2 => hq (hq2 ▸ hx)) (' ' :: ['%', '>']))

/-- The title computed for a text whose first `<%` is the standard page
block: it is read off that block only, whatever follows. -/
theorem titleOf_at_block {xs attrs rest : List Char}
    (hxs : '<' ∉ xs) (ha : ∀ x ∈ attrs, ¬x = '%') :
    titleOf (xs ++ ("<%@ Page ".data ++ (attrs ++ ('%' :: '>' :: rest)))) =
      (match reSearch titleMatchAt ("<%@ Page ".data ++ (attrs ++ ['%', '>'])) with
       | some v => v
       | none => UNTITLED) := by
  unfold titleOf
  rw [reSearch_page_at_block hxs ha]

theorem titleOf_c6 {title : List Char} (ht1 : title ≠ []) (ht2 : '"' ∉ title)
    (ht3 : '%' ∉ title) (rest : List Char) :
    titleOf ("<%@ Page ".data ++
        (("Title=\"".data ++ (title ++ "\" ".data)) ++ ('%' :: '>' :: rest))) = title := by
  have h := @titleOf_at_block [] ("Title=\"".data ++ (title ++ "\" ".data)) rest
    (by simp)
    (by
      intro x hx
      simp only [List.mem_append] at hx
      rcases hx with h1 | h2 | h3
      · intro he; rw [he] at h1; revert h1; decide
      · intro he; exact ht3 (he ▸ h2)
      · intro he; rw [he] at h3; revert h3; decide)
  simp only [List.nil_append] at h
  rw [h, reSearch_title_in_block ht1 ht2]

theorem reSub_id_no_lt {M : List Char → Option (α × List Char)} {rep}
    (hG : ∀ (c : Char) (t : List Char), c ≠ '<' → M (c :: t) = none)
    (hM0 : M [] = none) {s : List Char} (h : '<' ∉ s) : reSub M rep s = s :=
  reSub_of_search_none (reSearch_none_of_no_lt hG hM0 h)

theorem bodyOf_c6 {attrs inner : List Char}
    (ha : ∀ x ∈ attrs, ¬x = '%') (hi1 : '<' ∉ inner) :
    bodyOf ("<%@ Page ".data ++
        (attrs ++ ('%' :: '>' ::
          ("\n<asp:Content>".data ++ (inner ++ "</asp:Content>".data))))) =
      pyStrip inner := by
  have hpage := pageDirectiveMatchAt_block
    ("\n<asp:Content>".data ++ (inner ++ "</asp:Content>".data)) ha
  show pyStrip
      (reSub aspServerBlockMatchAt delRep
        (reSub aspCommentMatchAt delRep
          (reSub aspContentEndMatchAt delRep
            (reSub aspContentStartMatchAt delRep
              (reSub threeLineHeaderMatchAt bannerRep
                (reSub pageDirectiveMatchAt delRep _)))))) = pyStrip inner
  rw [reSub_match pageDirectiveMatchAt_shrinking hpage]
  rw [show (delRep ("<%@ Page ".data ++ (attrs ++ ['%', '>'])) : List Char) = [] from rfl,
    List.nil_append]
  -- page sub leaves the remainder unchanged
  rw [reSub_skip (by repeat constructor :
      FailsAlong pageDirectiveMatchAt ("\n<asp:Content>".data)
        (inner ++ "</asp:Content>".data)),
    reSub_skip_no_lt (fun _ t hc => pageDirectiveMatchAt_guard t hc) _ hi1,
    show reSub pageDirectiveMatchAt delRep ("</asp:Content>".data) =
      "</asp:Content>".data from rfl]
  -- banner sub is a no-op here
  rw [reSub_skip (by repeat constructor :
      FailsAlong threeLineHeaderMatchAt ("\n<asp:Content>".data)
        (inner ++ "</asp:Content>".data)),
    reSub_skip_no_lt (fun _ t hc => threeLineHeaderMatchAt_guard t hc) _ hi1,
    show reSub threeLineHeaderMatchAt bannerRep ("</asp:Content>".data) =
      "</asp:Content>".data from rfl]
  -- content start tag is removed
  rw [show ("\n<asp:Content>".data : List Char) ++ (inner ++ "</asp:Content>".data) =
      '\n' :: ("<asp:Content>".data ++ (inner ++ "</asp:Content>".data)) from rfl,
    reSub_cons_none (aspContentStartMatchAt_guard _ (by decide)),
    reSub_match aspContentStartMatchAt_shrinking
      (show aspContentStartMatchAt
          ("<asp:Content>".data ++ (inner ++ "</asp:Content>".data)) =
        some ("<asp:Content>".data, inner ++ "</asp:Content>".data) from rfl),
    show (delRep ("<asp:Content>".data) : List Char) = [] from rfl,
    List.nil_append,
    reSub_skip_no_lt (fun _ t hc => aspContentStartMatchAt_guard t hc) _ hi1,
    show reSub aspContentStartMatchAt delRep ("</asp:Content>".data) =
      "</asp:Content>".data from rfl]
  -- content end tag is removed
  rw [reSub_cons_none (aspContentEndMatchAt_guard _ (by decide)),
    reSub_skip_no_lt (fun _ t hc => aspContentEndMatchAt_guard t hc) _ hi1,
    reSub_match aspContentEndMatchAt_shrinking
      (show aspContentEndMatchAt ("</asp:Content>".data) =
        some ("</asp:Content>".data, []) from rfl),
    reSub_nil,
    show (delRep ("</asp:Content>".data) : List Char) = [] from rfl,
    List.append_nil, List.append_nil]
  -- comment and server-block subs are no-ops
  rw [reSub_cons_none (aspCommentMatchAt_guard _ (by decide)),
    reSub_id_no_lt (fun _ t hc => aspCommentMatchAt_guard t hc)
      (shrinking_nil_none aspCommentMatchAt_shrinking) hi1,
    reSub_cons_none (aspServerBlockMatchAt_guard _ (by decide)),
    reSub_id_no_lt (fun _ t hc => aspServerBlockMatchAt_guard t hc)
      (shrinking_nil_none aspServerBlockMatchAt_shrinking) hi1,
    pyStrip_ws_cons (by decide)]

theorem reSub_around_register {M : List Char → Option (α × List Char)} {rep}
    (hG : ∀ (c : Char) (t : List Char), c ≠ '<' → M (c :: t) = none)
    (hfa : ∀ R : List Char, FailsAlong M ("<%@ Register ".data) R)
    {xs attrs : List Char} (hxs : '<' ∉ xs) (hattrs : '<' ∉ attrs)
    (r : List Char) :
    reSub M rep (xs ++ ("<%@ Register ".data ++ (attrs ++ ('%' :: '>' :: r)))) =
      xs ++ ("<%@ Register ".data ++ (attrs ++ ('%' :: '>' :: reSub M rep r))) := by
  rw [reSub_skip_no_lt hG _ hxs, reSub_skip (hfa _), reSub_skip_no_lt hG _ hattrs,
    reSub_cons_none (hG '%' _ (by decide)), reSub_cons_none (hG '>' _ (by decide))]

theorem body_c10 {xs attrs rest : List Char}
    (hxs : '<' ∉ xs) (hattrs : '<' ∉ attrs) :
    ∃ x y,
      bodyOf (xs ++ ("<%@ Register ".data ++ (attrs ++ ('%' :: '>' :: rest)))) =
        x ++ ('<' :: (("%@ Register ".data ++ (attrs ++ ['%'])) ++ ['>'])) ++ y := by
  show ∃ x y, pyStrip
      (reSub aspServerBlockMatchAt delRep
        (reSub aspCommentMatchAt delRep
          (reSub aspContentEndMatchAt delRep
            (reSub aspContentStartMatchAt delRep
              (reSub threeLineHeaderMatchAt bannerRep
                (reSub pageDirectiveMatchAt delRep _)))))) =
      x ++ ('<' :: (("%@ Register ".data ++ (attrs ++ ['%'])) ++ ['>'])) ++ y
  rw [reSub_around_register (fun _ t hc => pageDirectiveMatchAt_guard t hc)
      (fun R => by repeat constructor) hxs hattrs,
    reSub_around_register (fun _ t hc => threeLineHeaderMatchAt_guard t hc)
      (fun R => by repeat constructor) hxs hattrs,
    reSub_around_register (fun _ t hc => aspContentStartMatchAt_guard t hc)
      (fun R => by repeat constructor) hxs hattrs,
    reSub_around_register (fun _ t hc => aspContentEndMatchAt_guard t hc)
      (fun R => by repeat constructor) hxs hattrs,
    reSub_around_register (fun _ t hc => aspCommentMatchAt_guard t hc)
      (fun R => by repeat constructor) hxs hattrs,
    reSub_around_register (fun _ t hc => aspServerBlockMatchAt_guard t hc)
      (fun R => by repeat constructor) hxs hattrs]
  have hshape : xs ++ ("<%@ Register ".data ++ (attrs ++ ('%' :: '>' ::
      (reSub aspServerBlockMatchAt delRep
        (reSub aspCommentMatchAt delRep
          (reSub aspContentEndMatchAt delRep
            (reSub aspContentStartMatchAt delRep
              (reSub threeLineHeaderMatchAt bannerRep
                (reSub pageDirectiveMatchAt delRep rest))))))))) =
      xs ++ ('<' :: (("%@ Register ".data ++ (attrs ++ ['%'])) ++ ['>'])) ++
        (reSub aspServerBlockMatchAt delRep
          (reSub aspCommentMatchAt delRep
            (reSub aspContentEndMatchAt delRep
              (reSub aspContentStartMatchAt delRep
                (reSub threeLineHeaderMatchAt bannerRep
                  (reSub pageDirectiveMatchAt delRep rest)))))) := by
    rw [show ("<%@ Register ".data : List Char) = '<' :: "%@ Register ".data from rfl]
    simp [List.append_assoc]
  rw [hshape]
  obtain ⟨x, y, hxy⟩ := @exists_pyStrip_parts '<' '>'
    (by decide) (by decide) ("%@ Register ".data ++ (attrs ++ ['%'])) xs _
  exact ⟨x, y, hxy⟩

/-- The head text before the title element. -/
def headPreA : List Char := ("<head>\n    <meta charset=\"UTF-8\">\n    ").data

/-- The head text after the title element. -/
def headPostRest : List Char := ("\n\n    <!-- CSS -->\n    <link rel=\"stylesheet\" href=\"Content/jquery-ui.min.css\">\n    <link rel=\"stylesheet\" href=\"Content/tabulator/tabulator.min.css\">\n\n    <!-- JS base -->\n    <script src=\"Scripts/jquery-3.7.1.min.js\"></script>\n    <script src=\"Scripts/jquery-ui.min.js\"></script>\n\n    <!-- FontAwesome -->\n    <script src=\"Scripts/FontAwesome/fontawesome.min.js\"></script>\n    <script src=\"Scripts/FontAwesome/solid.min.js\"></script>\n    <script src=\"Scripts/FontAwesome/regular.min.js\"></script>\n\n    <!-- App common -->\n    <script src=\"Scripts/mvp.js\"></script>\n</head>\n").data

theorem headPre_split : headPre = headPreA ++ "<title>".data := by decide

theorem headPost_split : headPost = "</title>".data ++ headPostRest := by decide

/-- The output always contains the element `<title>(titleOf text)</title>`. -/
theorem title_tag_infix (text : List Char) :
    containsSub ("<title>".data ++ (titleOf text ++ "</title>".data))
      (convert_aspx_to_html text) = true := by
  rw [convert_decomp, headPre_split, headPost_split]
  apply containsSub_iff_exists.mpr
  refine ⟨docPre ++ headPreA,
    headPostRest ++ (bodyPre ++ (bodyOf text ++ bodySuf)), ?_⟩
  simp [List.append_assoc]

/-- C1: for every input text in which the page-directive search finds a
block and the title search within that block captures `X`, the head of the
Transformer's output contains the title element `<title>X</title>`. -/
theorem claim_C1 (text block v : List Char)
    (h1 : reSearch pageDirectiveMatchAt text = some block)
    (h2 : reSearch titleMatchAt block = some v) :
    containsSub ("<title>".data ++ (v ++ "</title>".data))
      (convert_aspx_to_html text) = true := by
  have ht : titleOf text = v := by
    unfold titleOf
    simp only [h1, h2]
  have := title_tag_infix text
  rw [ht] at this
  exact this

theorem claim_C1_witness :
    reSearch pageDirectiveMatchAt ("<%@ Page Title=\"X\" %>hello".data) =
        some ("<%@ Page Title=\"X\" %>".data) ∧
    reSearch titleMatchAt ("<%@ Page Title=\"X\" %>".data) = some ("X".data) ∧
    containsSub ("<title>".data ++ ("X".data ++ "</title>".data))
      (convert_aspx_to_html ("<%@ Page Title=\"X\" %>hello".data)) = true :=
  ⟨by decide, by decide,
   claim_C1 ("<%@ Page Title=\"X\" %>hello".data) ("<%@ Page Title=\"X\" %>".data)
     ("X".data) (by decide) (by decide)⟩

/-- C2: with no page directive, or a first directive block without a title
attribute, the output title is exactly "Untitled Page"; and the title is
computed from the first directive block only, so that whatever follows the
block (in particular later directive blocks) never affects it. -/
theorem claim_C2 :
    (∀ text : List Char, reSearch pageDirectiveMatchAt text = none →
      titleOf text = UNTITLED ∧
      containsSub ("<title>Untitled Page</title>".data)
        (convert_aspx_to_html text) = true) ∧
    (∀ text block : List Char,
      reSearch pageDirectiveMatchAt text = some block →
      reSearch titleMatchAt block = none →
      titleOf text = UNTITLED ∧
      containsSub ("<title>Untitled Page</title>".data)
        (convert_aspx_to_html text) = true) ∧
    (∀ xs attrs rest : List Char, '<' ∉ xs → (∀ x ∈ attrs, ¬x = '%') →
      titleOf (xs ++ ("<%@ Page ".data ++ (attrs ++ ('%' :: '>' :: rest)))) =
        titleOf (xs ++ ("<%@ Page ".data ++ (attrs ++ ('%' :: '>' :: ([] : List Char)))))) := by
  refine ⟨?_, ?_, ?_⟩
  · intro text h
    have ht : titleOf text = UNTITLED := by
      unfold titleOf
      simp only [h]
    refine ⟨ht, ?_⟩
    have := title_tag_infix text
    rw [ht] at this
    have heq : ("<title>".data : List Char) ++ (UNTITLED ++ "</title>".data) =
        "<title>Untitled Page</title>".data := by decide
    rw [heq] at this
    exact this
  · intro text block h1 h2
    have ht : titleOf text = UNTITLED := by
      unfold titleOf
      simp only [h1, h2]
    refine ⟨ht, ?_⟩
    have := title_tag_infix text
    rw [ht] at this
    have heq : ("<title>".data : List Char) ++ (UNTITLED ++ "</title>".data) =
        "<title>Untitled Page</title>".data := by decide
    rw [heq] at this
    exact this
  · intro xs attrs rest hxs ha
    rw [titleOf_at_block hxs ha, titleOf_at_block hxs ha]

theorem claim_C2_witness :
    (titleOf ("hello".data) = UNTITLED ∧
      containsSub ("<title>Untitled Page</title>".data)
        (convert_aspx_to_html ("hello".data)) = true) ∧
    (titleOf ("<%@ Page x %>".data) = UNTITLED ∧
      containsSub ("<title>Untitled Page</title>".data)
        (convert_aspx_to_html ("<%@ Page x %>".data)) = true) ∧
    titleOf ("<%@ Page ".data ++ ("Title=\"A\" ".data ++
        ('%' :: '>' :: "<%@ Page Title=\"B\" %>".data))) =
      titleOf ("<%@ Page ".data ++ ("Title=\"A\" ".data ++
        ('%' :: '>' :: ([] : List Char)))) :=
  ⟨claim_C2.1 ("hello".data) (by decide),
   claim_C2.2.1 ("<%@ Page x %>".data) ("<%@ Page x %>".data) (by decide) (by decide),
   by
    have := claim_C2.2.2 [] ("Title=\"A\" ".data)
      ("<%@ Page Title=\"B\" %>".data) (by decide) (by decide)
    simpa using this⟩

/-- C3: the head of every output is the fixed template with only the title
slot varying: the template splits into a fixed prefix, the slot and a fixed
suffix, and every output is the fixed skeleton around the computed title
and body. -/
theorem claim_C3 :
    COMMON_HEAD_TEMPLATE = headPre ++ (titleSlot ++ headPost) ∧
    ∀ text : List Char,
      convert_aspx_to_html text =
        docPre ++ (headPre ++ (titleOf text ++
          (headPost ++ (bodyPre ++ (bodyOf text ++ bodySuf))))) := by
  constructor
  · rw [template_split]
    simp [List.append_assoc]
  · intro text
    rw [convert_decomp]
    simp [List.append_assoc]

/-- C4: every match of the three-line banner pattern is replaced by the
single HTML comment built from the stripped capture; on a standalone
banner whose inner text is free of dashes and percent signs, the
substitution yields exactly that comment; and on the spec's example the
body is exactly `<!-- ----------- Section A ----------- -->`, which
appears exactly once in the output. -/
theorem claim_C4 :
    (∀ s cap r : List Char, threeLineHeaderMatchAt s = some (cap, r) →
      reSub threeLineHeaderMatchAt bannerRep s =
        ("<!-- ----------- ".data ++ (pyStrip cap ++ " ----------- -->".data)) ++
          reSub threeLineHeaderMatchAt bannerRep r) ∧
    (∀ inner : List Char, (∀ x ∈ inner, ¬x = '-' ∧ ¬x = '%') →
      reSub threeLineHeaderMatchAt bannerRep
          ("<%---%>\n<%-- ".data ++ (inner ++ " --%>\n<%---%>".data)) =
        "<!-- ----------- ".data ++ (pyStrip inner ++ " ----------- -->".data)) ∧
    (bodyOf ("<%---%>\n<%-- Section A --%>\n<%---%>".data) =
        "<!-- ----------- Section A ----------- -->".data ∧
      countSub ("<!-- ----------- Section A ----------- -->".data)
        (convert_aspx_to_html ("<%---%>\n<%-- Section A --%>\n<%---%>".data)) = 1) := by
  refine ⟨?_, ?_, by decide, by decide⟩
  · intro s cap r h
    rw [reSub_match threeLineHeaderMatchAt_shrinking h]
    rfl
  · intro inner h
    rw [reSub_match threeLineHeaderMatchAt_shrinking (threeLineHeaderMatchAt_banner h),
      reSub_nil, List.append_nil]
    show ("<!-- ----------- ".data : List Char) ++
        (pyStrip (pyStrip inner) ++ " ----------- -->".data) = _
    rw [pyStrip_idem]

theorem claim_C4_witness :
    threeLineHeaderMatchAt ("<%---%>\n<%-- Section A --%>\n<%---%>".data) =
        some ("Section A".data, []) ∧
    reSub threeLineHeaderMatchAt bannerRep
        ("<%---%>\n<%-- Section A --%>\n<%---%>".data) =
      ("<!-- ----------- ".data ++
        (pyStrip ("Section A".data) ++ " ----------- -->".data)) ++
        reSub threeLineHeaderMatchAt bannerRep [] ∧
    reSub threeLineHeaderMatchAt bannerRep
        ("<%---%>\n<%-- ".data ++ ("Section A".data ++ " --%>\n<%---%>".data)) =
      "<!-- ----------- ".data ++
        (pyStrip ("Section A".data) ++ " ----------- -->".data) :=
  ⟨by decide,
   claim_C4.1 ("<%---%>\n<%-- Section A --%>\n<%---%>".data) ("Section A".data) []
     (by decide),
   claim_C4.2.1 ("Section A".data) (by decide)⟩

/-- C5 counterexample: the banner `<%---%> <%-- a<%x%>b --%> <%---%>` is
converted to the comment `<!-- ----------- a<%x%>b ----------- -->`, which
DOES match a later removal pattern (the server-block pattern matches its
`<%x%>`), and the later pipeline steps change it: the body ends up
`<!-- ----------- ab ----------- -->`. -/
theorem claim_C5_counterexample :
    reSub threeLineHeaderMatchAt bannerRep
        ("<%---%> <%-- a<%x%>b --%> <%---%>".data) =
      "<!-- ----------- a<%x%>b ----------- -->".data ∧
    (reSearch aspServerBlockMatchAt
        ("<!-- ----------- a<%x%>b ----------- -->".data)).isSome = true ∧
    bodyOf ("<%---%> <%-- a<%x%>b --%> <%---%>".data) =
      "<!-- ----------- ab ----------- -->".data := by
  refine ⟨by decide, by decide, by decide⟩

/-- C5 (amended): for every converted banner comment whose inner text
contains no `<`, the comment matches neither the three-line banner pattern
nor any of the removal patterns, and running the substitution pipeline on
it leaves it unchanged (its body is itself). -/
theorem claim_C5 (w : List Char) (hw : '<' ∉ w) :
    reSearch threeLineHeaderMatchAt (bannerComment w) = none ∧
    reSearch aspContentStartMatchAt (bannerComment w) = none ∧
    reSearch aspContentEndMatchAt (bannerComment w) = none ∧
    reSearch aspCommentMatchAt (bannerComment w) = none ∧
    reSearch aspServerBlockMatchAt (bannerComment w) = none ∧
    reSearch pageDirectiveMatchAt (bannerComment w) = none ∧
    bodyOf (bannerComment w) = bannerComment w :=
  ⟨search_tlh_bannerComment hw, search_contentStart_bannerComment hw,
   search_contentEnd_bannerComment hw, search_aspComment_bannerComment hw,
   search_serverBlock_bannerComment hw, search_page_bannerComment hw,
   bodyOf_bannerComment hw⟩

theorem claim_C5_witness :
    ('<' ∉ ("Section A".data : List Char)) ∧
    reSearch threeLineHeaderMatchAt (bannerComment ("Section A".data)) = none ∧
    bodyOf (bannerComment ("Section A".data)) = bannerComment ("Section A".data) :=
  ⟨by decide, (claim_C5 ("Section A".data) (by decide)).1,
   (claim_C5 ("Section A".data) (by decide)).2.2.2.2.2.2⟩

/-- C6 counterexample: the claim "the text enclosed by content-region tags
is preserved verbatim in the output body" fails for every input whose
enclosed text is itself server markup: for
`<asp:Content><% x %></asp:Content>` the enclosed text `<% x %>` is
removed by the later server-block step, so it does not appear in the
output at all (the body is empty). -/
theorem claim_C6_counterexample :
    containsSub ("<% x %>".data)
        (convert_aspx_to_html ("<asp:Content><% x %></asp:Content>".data)) = false ∧
    bodyOf ("<asp:Content><% x %></asp:Content>".data) = [] := by
  refine ⟨by decide, by decide⟩

/-- C6 (amended): the content-region tags are removed and the enclosed
text is preserved whenever it contains no `<` (otherwise it remains
subject to the later removal steps); in particular, for the example shape
`<%@ Page Title="T" %>` followed by `<asp:Content>inner</asp:Content>`,
the output is the fixed skeleton with title `T` and body the stripped
`inner`, with no asp:Content tag left. -/
theorem claim_C6 (title inner : List Char) (ht1 : title ≠ [])
    (ht2 : '"' ∉ title) (ht3 : '%' ∉ title) (hi : '<' ∉ inner) :
    convert_aspx_to_html ("<%@ Page ".data ++
        (("Title=\"".data ++ (title ++ "\" ".data)) ++
          ('%' :: '>' :: ("\n<asp:Content>".data ++
            (inner ++ "</asp:Content>".data))))) =
      docPre ++ (headPre ++ (title ++ (headPost ++
        (bodyPre ++ (pyStrip inner ++ bodySuf))))) := by
  have ha : ∀ x ∈ ("Title=\"".data ++ (title ++ "\" ".data) : List Char), ¬x = '%' := by
    intro x hx
    simp only [List.mem_append] at hx
    rcases hx with h1 | h2 | h3
    · intro he; rw [he] at h1; revert h1; decide
    · intro he; exact ht3 (he ▸ h2)
    · intro he; rw [he] at h3; revert h3; decide
  rw [convert_decomp, titleOf_c6 ht1 ht2 ht3, bodyOf_c6 ha hi]
  simp [List.append_assoc]

theorem claim_C6_witness :
    convert_aspx_to_html ("<%@ Page ".data ++
        (("Title=\"".data ++ ("Home".data ++ "\" ".data)) ++
          ('%' :: '>' :: ("\n<asp:Content>".data ++
            ("Hello".data ++ "</asp:Content>".data))))) =
      docPre ++ (headPre ++ ("Home".data ++ (headPost ++
        (bodyPre ++ (pyStrip ("Hello".data) ++ bodySuf))))) ∧
    ("<%@ Page ".data ++ (("Title=\"".data ++ ("Home".data ++ "\" ".data)) ++
        ('%' :: '>' :: ("\n<asp:Content>".data ++
          ("Hello".data ++ "</asp:Content>".data)))) : List Char) =
      "<%@ Page Title=\"Home\" %>\n<asp:Content>Hello</asp:Content>".data ∧
    containsSub ("asp:Content".data)
      (convert_aspx_to_html
        ("<%@ Page Title=\"Home\" %>\n<asp:Content>Hello</asp:Content>".data)) = false ∧
    containsSub ("<title>Home</title>".data)
      (convert_aspx_to_html
        ("<%@ Page Title=\"Home\" %>\n<asp:Content>Hello</asp:Content>".data)) = true ∧
    containsSub ("Hello".data)
      (convert_aspx_to_html
        ("<%@ Page Title=\"Home\" %>\n<asp:Content>Hello</asp:Content>".data)) = true :=
  ⟨claim_C6 ("Home".data) ("Hello".data) (by decide) (by decide) (by decide) (by decide),
   by decide, by decide, by decide, by decide⟩

/-- C7: the extracted title and the computed body are inserted verbatim
into the output — the exact character sequences appear as contiguous
substrings of the output, with no escaping or encoding applied. -/
theorem claim_C7 (text : List Char) :
    containsSub (titleOf text) (convert_aspx_to_html text) = true ∧
    containsSub (bodyOf text) (convert_aspx_to_html text) = true := by
  constructor
  · rw [convert_decomp]
    apply containsSub_iff_exists.mpr
    exact ⟨docPre ++ headPre,
      headPost ++ (bodyPre ++ (bodyOf text ++ bodySuf)), by simp [List.append_assoc]⟩
  · rw [convert_decomp]
    apply containsSub_iff_exists.mpr
    exact ⟨docPre ++ (headPre ++ (titleOf text ++ (headPost ++ bodyPre))),
      bodySuf, by simp [List.append_assoc]⟩

/-- C8: the Driver fails fatally, before creating anything or writing any
file, when the input path does not exist or is not a directory; when the
input is valid but contains no matching files it prints the notice and
finishes successfully with no file written, though the output directory
has been created. -/
theorem claim_C8 (fs : FileSys) :
    (¬(fs.inputExists = true ∧ fs.inputIsDir = true) →
      mainDriver fs =
        { fatal := true, createdOutputDir := false, notice := false, written := [] }) ∧
    (fs.inputExists = true → fs.inputIsDir = true → fs.aspxFiles = [] →
      mainDriver fs =
        { fatal := false, createdOutputDir := true, notice := true, written := [] }) := by
  constructor
  · intro h
    unfold mainDriver
    have hb : ¬(fs.inputExists && fs.inputIsDir) = true := by
      simp only [Bool.and_eq_true]
      exact h
    rw [if_neg hb]
  · intro h1 h2 h3
    unfold mainDriver
    rw [if_pos (by simp [h1, h2]), if_pos (by simp [h3])]

theorem claim_C8_witness :
    mainDriver { inputExists := false, inputIsDir := false, aspxFiles := [] } =
      { fatal := true, createdOutputDir := false, notice := false, written := [] } ∧
    mainDriver { inputExists := true, inputIsDir := true, aspxFiles := [] } =
      { fatal := false, createdOutputDir := true, notice := true, written := [] } :=
  ⟨(claim_C8 _).1 (by simp),
   (claim_C8 _).2 rfl rfl rfl⟩

/-- C9: an empty title attribute `Title=""` is rejected by the title
pattern (whose value class requires at least one character), so a first
page directive carrying only `Title=""` yields the default title
"Untitled Page". -/
theorem claim_C9 :
    reSearch titleMatchAt ("Title=\"\"".data) = none ∧
    ∀ xs rest : List Char, '<' ∉ xs →
      titleOf (xs ++ ("<%@ Page ".data ++
        ("Title=\"\" ".data ++ ('%' :: '>' :: rest)))) = UNTITLED := by
  constructor
  · decide
  · intro xs rest hxs
    rw [titleOf_at_block hxs (by decide)]
    decide

theorem claim_C9_witness :
    ('<' ∉ ("x ".data : List Char)) ∧
    titleOf ("x ".data ++ ("<%@ Page ".data ++
        ("Title=\"\" ".data ++ ('%' :: '>' :: " tail".data)))) = UNTITLED :=
  ⟨by decide, claim_C9.2 ("x ".data) (" tail".data) (by decide)⟩

/-- C10 counterexample: a Register directive IS removed when an earlier
`<%` opens a server block whose lazy `.*?%>` swallows it: for
`<%x <%@ Register a%> tail` the server-block pattern matches
`<%x <%@ Register a%>`, so no trace of the directive appears in the
output (the body is just `tail`). -/
theorem claim_C10_counterexample :
    containsSub ("<%@ Register".data)
        (convert_aspx_to_html ("<%x <%@ Register a%> tail".data)) = false ∧
    bodyOf ("<%x <%@ Register a%> tail".data) = "tail".data := by
  refine ⟨by decide, by decide⟩

/-- C10 (amended): a non-Page `@`-directive such as `<%@ Register ... %>`
is removed by no pipeline step and appears verbatim in the output,
provided no other `<` occurs before it or inside its attributes (so that
no server comment or server code block opened earlier can swallow it). -/
theorem claim_C10 (xs attrs rest : List Char)
    (hxs : '<' ∉ xs) (hattrs : '<' ∉ attrs) :
    containsSub ("<%@ Register ".data ++ (attrs ++ ['%', '>']))
      (convert_aspx_to_html
        (xs ++ ("<%@ Register ".data ++ (attrs ++ ('%' :: '>' :: rest))))) = true := by
  obtain ⟨x, y, hxy⟩ := @body_c10 xs attrs rest hxs hattrs
  have hd : ("<%@ Register ".data : List Char) ++ (attrs ++ ['%', '>']) =
      '<' :: (("%@ Register ".data ++ (attrs ++ ['%'])) ++ ['>']) := by
    rw [show ("<%@ Register ".data : List Char) = '<' :: "%@ Register ".data from rfl]
    simp [List.append_assoc]
  rw [convert_decomp, hxy, hd]
  apply containsSub_iff_exists.mpr
  refine ⟨docPre ++ (headPre ++
      (titleOf (xs ++ ("<%@ Register ".data ++ (attrs ++ ('%' :: '>' :: rest)))) ++
        (headPost ++ (bodyPre ++ x)))),
    y ++ bodySuf, ?_⟩
  simp [List.append_assoc]

theorem claim_C10_witness :
    ('<' ∉ ("pre ".data : List Char)) ∧
    containsSub ("<%@ Register ".data ++ ("a=\"1\" ".data ++ ['%', '>']))
      (convert_aspx_to_html
        ("pre ".data ++ ("<%@ Register ".data ++
          ("a=\"1\" ".data ++ ('%' :: '>' :: " post".data))))) = true :=
  ⟨by decide,
   claim_C10 ("pre ".data) ("a=\"1\" ".data) (" post".data) (by decide) (by decide)⟩
